import Mathlib

/-!
Shallow embedding of the thai-audio-transcription pipeline
(`transcribe.py`, `check_duplicates.py`) and proofs about it.

Strings are modelled as `List Char`; Python whitespace handling
(`str.strip`, the regex class `\s`) is modelled over the ASCII whitespace
characters, and `\d` over the ASCII digits, which covers every character
the pipeline itself emits.  Times are modelled in centiseconds (`Nat`),
which is exactly the precision at which the code prints them (`:.2f`);
all times appearing in the claims are exactly representable.
-/

abbrev Str := List Char

/-- ASCII whitespace, as stripped by Python `str.strip()` and matched by
the regex class `\s` (space, tab, newline, carriage return, vertical tab,
form feed). -/
def pyIsSpace (c : Char) : Bool :=
  c == ' ' || c == '\t' || c == '\n' || c == '\r' || c == '\x0b' || c == '\x0c'

/-- Python `str.strip()`: drop whitespace from both ends. -/
def pyStrip (s : Str) : Str :=
  ((s.dropWhile pyIsSpace).reverse.dropWhile pyIsSpace).reverse

/-- Decimal digits of `n`, most significant first, with explicit fuel so
that the definition is structurally recursive (`natDigsF f 0 = []`). -/
def natDigsF : Nat → Nat → Str
  | _, 0 => []
  | 0, _ + 1 => []
  | fuel + 1, n + 1 => natDigsF fuel ((n + 1) / 10) ++ [Nat.digitChar ((n + 1) % 10)]

/-- Decimal digits of a positive number, most significant first
(`natDigs 0 = []`). -/
def natDigs (n : Nat) : Str :=
  natDigsF n n

/-- Python `str(n)` for a natural number. -/
def natStr (n : Nat) : Str :=
  if n = 0 then ['0'] else natDigs n

/-- Python `f"{x:.2f}"` for a non-negative time of `c` centiseconds:
the integer part in natural width followed by exactly two fractional
digits. -/
def fmtCenti (c : Nat) : Str :=
  natStr (c / 100) ++ '.' :: [Nat.digitChar (c / 10 % 10), Nat.digitChar (c % 10)]

/-- One decoded unit from the engine: start/end times in centiseconds
and the segment text (`seg.start`, `seg.end`, `seg.text`). -/
structure TranscriptSegment where
  start : Nat
  stop : Nat
  text : Str
deriving DecidableEq

/-- `transcribe.py` line 112/114: `f"[{seg.start:.2f}s → {seg.end:.2f}s] {seg.text}"`. -/
def segLine (s : TranscriptSegment) : Str :=
  '[' :: (fmtCenti s.start ++ 's' :: ' ' :: '→' :: ' ' :: (fmtCenti s.stop ++ 's' :: ']' :: ' ' :: s.text))

/-- `transcribe.py` line 114: accumulated timestamped text, one
`segLine` plus `"\n"` per segment. -/
def timestampedText (segs : List TranscriptSegment) : Str :=
  (segs.map (fun s => segLine s ++ ['\n'])).flatten

/-- `transcribe.py` line 113: accumulated plain text, `seg.text + " "`
per segment. -/
def fullText (segs : List TranscriptSegment) : Str :=
  (segs.map (fun s => s.text ++ [' '])).flatten

/-- The regex piece `\d{2}\.\d{2}s`: exactly two digits, a point, two
digits and the letter `s`; on success the remainder of the input. -/
def parseSecs (s : Str) : Option Str :=
  match s with
  | d1 :: d2 :: '.' :: d3 :: d4 :: 's' :: rest =>
    if d1.isDigit && d2.isDigit && d3.isDigit && d4.isDigit then some rest else none
  | _ => none

/-- The regex `\[\d{2}\.\d{2}s → \d{2}\.\d{2}s\]\s*(.*)` of
`check_duplicates.py` line 19, applied with `re.match` (anchored at the
start): on success, the capture group `(.*)` — everything after the
greedy `\s*` up to the next newline. -/
def markerRest (s : Str) : Option Str :=
  match s with
  | '[' :: r =>
    match parseSecs r with
    | some (' ' :: '→' :: ' ' :: r2) =>
      match parseSecs r2 with
      | some (']' :: rest) => some ((rest.dropWhile pyIsSpace).takeWhile (fun c => c != '\n'))
      | _ => none
    | _ => none
  | _ => none

/-- `check_duplicates.py` lines 13–22 (`extract_text_from_timestamped`):
match the timestamp-marker regex against `line.strip()`; return the
capture group on success, else the whole stripped line. -/
def extract_text_from_timestamped (line : Str) : Str :=
  match markerRest (pyStrip line) with
  | some t => t
  | none => pyStrip line

/-- Join lines with a single `'\n'` between consecutive lines and none at
the end: the shape of the timestamped file after the outer strip. -/
def sepJoin : List Str → Str
  | [] => []
  | [l] => l
  | l :: l' :: ls => l ++ '\n' :: sepJoin (l' :: ls)

/-- Decimal value of a digit string (most significant first). -/
def digitsVal (l : Str) : Nat :=
  l.foldl (fun n c => 10 * n + (c.toNat - '0'.toNat)) 0

/-- Split a string into its lines at `'\n'` (no trailing-newline
special case: `splitLines [] = [[]]`). -/
def splitLines (s : Str) : List Str :=
  match s with
  | [] => [[]]
  | c :: r =>
    if c = '\n' then [] :: splitLines r
    else
      match splitLines r with
      | l :: ls => (c :: l) :: ls
      | [] => [[c]]

/-- Environment of one `transcribe_thai` call (`transcribe.py` lines
23–151): which fallible steps succeed, and what the engine yields.
`isWav` is `audio_path.lower().endswith(".wav")`; `convertOk` is whether
the `AudioSegment` decode + WAV export of the scratch file succeeds;
`modelOk` is whether a model was passed in or a `WhisperModel` could be
constructed (on GPU or CPU); `engine` is `model.transcribe`, which
either raises or yields the segment sequence; `writesOk` is whether
writing the two output files succeeds. -/
structure TranscribeIn where
  pathExists : Bool
  isWav : Bool
  convertOk : Bool
  modelOk : Bool
  engine : Except Unit (List TranscriptSegment)
  writesOk : Bool

/-- Observable outcome of one `transcribe_thai` call: the returned value
(`none` models Python `None`), the contents written to the two output
files (`none` when the file was not written), and whether a scratch WAV
was created by normalization and whether `os.remove` ran on it. -/
structure TranscribeOut where
  result : Option Str
  timestampedFile : Option Str
  plainFile : Option Str
  scratchCreated : Bool
  scratchRemoved : Bool
deriving DecidableEq

/-- `transcribe.py` lines 41–151 (`transcribe_thai`), control flow made
explicit.  A missing source returns `None` at once.  A non-WAV source is
converted to a scratch WAV in the cache folder (on conversion failure the
original path is kept).  Model-load failure returns `None`.  Inside the
`try`: the engine is drained into the two text accumulators, both files
are written with their contents stripped, and only then — still on the
success path, before `return` — is the scratch file removed; any
exception jumps to the `except` handler, which returns `None` without
removing the scratch file. -/
def transcribe_thai (a : TranscribeIn) : TranscribeOut :=
  if !a.pathExists then
    ⟨none, none, none, false, false⟩
  else
    let scratch := !a.isWav && a.convertOk
    if !a.modelOk then
      ⟨none, none, none, scratch, false⟩
    else
      match a.engine with
      | .error _ => ⟨none, none, none, scratch, false⟩
      | .ok segs =>
        if a.writesOk then
          ⟨some (pyStrip (fullText segs)), some (pyStrip (timestampedText segs)),
           some (pyStrip (fullText segs)), scratch, scratch⟩
        else
          ⟨none, none, none, scratch, false⟩

/-- Python-dict counter update used by `check_duplicates_in_file`
(`check_duplicates.py` lines 40–44): a first occurrence inserts the text
with count 1, a later occurrence increments its count; insertion order of
keys is preserved, as in a Python dict. -/
def bump (m : List (Str × Nat)) (t : Str) : List (Str × Nat) :=
  match m with
  | [] => [(t, 1)]
  | (k, v) :: rest => if k = t then (k, v + 1) :: rest else (k, v) :: bump rest t

/-- First-match association-list lookup (Python dict access). -/
def lookupC (m : List (Str × Nat)) (t : Str) : Option Nat :=
  match m with
  | [] => none
  | (k, v) :: rest => if k = t then some v else lookupC rest t

/-- The per-line filter of `check_duplicates.py` line 39:
`if text and len(text) >= 10`. -/
def trackedText (t : Str) : Prop :=
  t ≠ [] ∧ 10 ≤ t.length

instance (t : Str) : Decidable (trackedText t) := by
  unfold trackedText; infer_instance

/-- One iteration of the counting loop of `check_duplicates.py` lines
36–44: extract the line's text and, if it passes the filter, record the
occurrence. -/
def lineCountsStep (m : List (Str × Nat)) (line : Str) : List (Str × Nat) :=
  if trackedText (extract_text_from_timestamped line) then
    bump m (extract_text_from_timestamped line)
  else m

/-- The counting loop of `check_duplicates.py` lines 36–44 over the
file's lines. -/
def lineCounts (lines : List Str) : List (Str × Nat) :=
  lines.foldl lineCountsStep []

/-- `check_duplicates.py` lines 25–50 (`check_duplicates_in_file`) on the
file's lines: the `(text, count)` pairs with `count > 1`. -/
def check_duplicates_in_file (lines : List Str) : List (Str × Nat) :=
  (lineCounts lines).filter (fun p => 1 < p.2)

/-- Number of lines of the file whose extracted text is `t`. -/
def occurrences (t : Str) (lines : List Str) : Nat :=
  lines.countP (fun l => extract_text_from_timestamped l = t)

/-- The extension allow-list of `transcribe.py` line 174, applied to the
lowercased file name: `file.lower().endswith((".mp3", ".wav", ".m4a",
".flac", ".ogg", ".wma", ".mp4", ".mkv"))`. -/
def hasAudioExt (f : Str) : Bool :=
  let lf := f.map Char.toLower
  [".mp3", ".wav", ".m4a", ".flac", ".ogg", ".wma", ".mp4", ".mkv"].any
    (fun e => e.data.isSuffixOf lf)

/-- Input of `transcribe_batch`: either a folder (modelled by the list of
file paths the recursive `os.walk` visits) or an explicit list of
paths. -/
inductive BatchInput where
  | folderIn (walkFiles : List Str)
  | listIn (files : List Str)

/-- File discovery of `transcribe_batch` (`transcribe.py` lines 165–175):
a folder input keeps exactly the walked files passing the extension
allow-list; an explicit list is used as given. -/
def batchFiles : BatchInput → List Str
  | .folderIn w => w.filter hasAudioExt
  | .listIn fs => fs

/-- Python-dict assignment `results[k] = v`, preserving insertion
order. -/
def setKey (m : List (Str × Option Str)) (k : Str) (v : Option Str) :
    List (Str × Option Str) :=
  match m with
  | [] => [(k, v)]
  | (k', v') :: rest => if k' = k then (k', v) :: rest else (k', v') :: setKey rest k v

/-- First-match lookup in the batch results dict. -/
def lookupB (m : List (Str × Option Str)) (k : Str) : Option (Option Str) :=
  match m with
  | [] => none
  | (k', v) :: rest => if k' = k then some v else lookupB rest k

/-- `transcribe.py` lines 153–253 (`transcribe_batch`).  `modelOk` is
whether a model was passed in or could be constructed; `runOne` is the
per-file `transcribe_thai` call, which either raises (`.error`) or
returns its value.  An empty file list and a model-load failure return
the empty dict; otherwise every file is processed in order, a raising
file is caught by the per-file `except` handler and recorded as `None`,
and the loop continues with the remaining files. -/
def transcribe_batch (inp : BatchInput) (modelOk : Bool)
    (runOne : Str → Except Unit (Option Str)) : List (Str × Option Str) :=
  let files := batchFiles inp
  if files = [] then []
  else if !modelOk then []
  else
    files.foldl
      (fun m f =>
        setKey m f (match runOne f with | .ok r => r | .error _ => none))
      []

/-- Environment of one `trim_audio` call (`transcribe.py` lines
256–308): whether the input exists, the `AudioSegment.from_file` decode
(raises, or yields audio of a given length in milliseconds), and whether
the export succeeds. -/
structure TrimIn where
  inputExists : Bool
  decode : Except Unit Nat
  exportOk : Bool

/-- `transcribe.py` lines 270–308 (`trim_audio`) for a requested
duration of `durationSec` seconds, returning the duration in
milliseconds of the written file (`none` models returning `None`).  A
missing input returns `None`; the `try` decodes the audio, slices the
first `duration_sec * 1000` milliseconds — a Python slice, clamped to
the audio's length — and exports it; any exception in decode or export
is caught and `None` is returned. -/
def trim_audio (a : TrimIn) (durationSec : Nat) : Option Nat :=
  if !a.inputExists then none
  else
    match a.decode with
    | .error _ => none
    | .ok len => if a.exportOk then some (min (durationSec * 1000) len) else none

/-- The batch loop of `transcribe_batch`, abstracted over the per-file
result value. -/
def foldDict (v : Str → Option Str) (files : List Str)
    (m : List (Str × Option Str)) : List (Str × Option Str) :=
  files.foldl (fun acc f => setKey acc f (v f)) m

lemma takeWhile_eq_self {p : Char → Bool} {l : Str} (h : ∀ c ∈ l, p c = true) :
    l.takeWhile p = l := by
  induction l with
  | nil => rfl
  | cons a t ih =>
    simp [List.takeWhile_cons, h a (by simp), ih (fun c hc => h c (by simp [hc]))]

lemma pyStrip_subset {l : Str} : ∀ c ∈ pyStrip l, c ∈ l := by
  intro c hc
  unfold pyStrip at hc
  rw [List.mem_reverse] at hc
  have h1 := (List.dropWhile_sublist (p := pyIsSpace)
    (l := (l.dropWhile pyIsSpace).reverse)).subset hc
  rw [List.mem_reverse] at h1
  exact (List.dropWhile_sublist (p := pyIsSpace) (l := l)).subset h1

example : fmtCenti 0 = "0.00".data := by decide
example : fmtCenti 150 = "1.50".data := by decide
example : fmtCenti 1234 = "12.34".data := by decide
example : fmtCenti 10000 = "100.00".data := by decide
example : extract_text_from_timestamped "[12.34s → 15.02s] hello".data = "hello".data := by decide
example : extract_text_from_timestamped "[0.00s → 1.50s] hello".data
    = "[0.00s → 1.50s] hello".data := by decide
example : segLine ⟨0, 150, "hello".data⟩ = "[0.00s → 1.50s] hello".data := by decide

/-- Claim C1, counterexample: the transcriber writes the marker for a
segment starting at 0.0s with single-digit integer parts
(`[0.00s → 1.50s]`), and on such a line the auditor's parser returns the
whole stripped line, not the text with the marker stripped. -/
theorem c1_counterexample :
    extract_text_from_timestamped (segLine ⟨0, 150, "hello".data⟩)
        = "[0.00s → 1.50s] hello".data
      ∧ "[0.00s → 1.50s] hello".data ≠ "hello".data :=
  ⟨by decide, by decide⟩

/-- Claim C1 (amended): the auditor's line parser strips a leading
`[DD.DDs → DD.DDs]` marker only when each seconds value has exactly two
integer digits and two fractional digits, returning the rest of the line
with the whitespace following the marker dropped; on every line whose
stripped form does not start with such a marker (in particular on marker
lines the transcriber writes for times below 10s or at or above 100s) it
returns the whole stripped line. -/
theorem c1_line_parse :
    (∀ (line rest : Str) (d1 d2 d3 d4 d5 d6 d7 d8 : Char),
      d1.isDigit = true → d2.isDigit = true → d3.isDigit = true → d4.isDigit = true →
      d5.isDigit = true → d6.isDigit = true → d7.isDigit = true → d8.isDigit = true →
      '\n' ∉ line →
      pyStrip line = '[' :: d1 :: d2 :: '.' :: d3 :: d4 :: 's' :: ' ' :: '→' :: ' ' ::
        d5 :: d6 :: '.' :: d7 :: d8 :: 's' :: ']' :: rest →
      extract_text_from_timestamped line = rest.dropWhile pyIsSpace)
    ∧ (∀ line : Str, markerRest (pyStrip line) = none →
      extract_text_from_timestamped line = pyStrip line) := by
  constructor
  · intro line rest d1 d2 d3 d4 d5 d6 d7 d8 h1 h2 h3 h4 h5 h6 h7 h8 hn hstrip
    have hrest : ∀ c ∈ rest.dropWhile pyIsSpace, (c != '\n') = true := by
      intro c hc
      have hc2 : c ∈ rest :=
        (List.dropWhile_sublist (p := pyIsSpace) (l := rest)).subset hc
      have hc3 : c ∈ pyStrip line := by rw [hstrip]; simp [hc2]
      have hc4 : c ∈ line := pyStrip_subset c hc3
      simp only [bne_iff_ne, ne_eq]
      intro hEq
      subst hEq
      exact hn hc4
    have e1 : parseSecs (d1 :: d2 :: '.' :: d3 :: d4 :: 's' :: (' ' :: '→' :: ' ' ::
        d5 :: d6 :: '.' :: d7 :: d8 :: 's' :: ']' :: rest)) = some (' ' :: '→' :: ' ' ::
        d5 :: d6 :: '.' :: d7 :: d8 :: 's' :: ']' :: rest) := by
      simp [parseSecs, h1, h2, h3, h4]
    have e2 : parseSecs (d5 :: d6 :: '.' :: d7 :: d8 :: 's' :: (']' :: rest))
        = some (']' :: rest) := by
      simp [parseSecs, h5, h6, h7, h8]
    have hm : markerRest ('[' :: d1 :: d2 :: '.' :: d3 :: d4 :: 's' :: ' ' :: '→' :: ' ' ::
        d5 :: d6 :: '.' :: d7 :: d8 :: 's' :: ']' :: rest)
        = some ((rest.dropWhile pyIsSpace).takeWhile (fun c => c != '\n')) := by
      simp [markerRest, e1, e2]
    unfold extract_text_from_timestamped
    rw [hstrip, hm]
    exact takeWhile_eq_self hrest
  · intro line h
    unfold extract_text_from_timestamped
    rw [h]

/-- Witness for `c1_line_parse` at a concrete two-digit marker line. -/
theorem c1_line_parse_witness :
    extract_text_from_timestamped "[12.34s → 15.02s] hi".data = "hi".data := by
  have h := c1_line_parse.1 "[12.34s → 15.02s] hi".data (' ' :: 'h' :: 'i' :: [])
    '1' '2' '3' '4' '1' '5' '0' '2' (by decide) (by decide) (by decide) (by decide)
    (by decide) (by decide) (by decide) (by decide) (by decide) (by decide)
  have h2 : ((' ' :: 'h' :: 'i' :: []) : Str).dropWhile pyIsSpace = "hi".data := by decide
  rw [h2] at h
  exact h

/-- Claim C2, counterexample: with the engine yielding the segments
`[(0.0, 1.5, "A"), (1.5, 3.0, "B")]`, the timestamped text is not the
zero-padded `"[00.00s → 01.50s] A\n[01.50s → 03.00s] B"` the claim
states, because the code prints seconds in natural integer width. -/
theorem c2_counterexample :
    (transcribe_thai ⟨true, true, true, true,
        .ok [⟨0, 150, "A".data⟩, ⟨150, 300, "B".data⟩], true⟩).timestampedFile
      ≠ some "[00.00s → 01.50s] A\n[01.50s → 03.00s] B".data := by
  decide

/-- Claim C2 (amended): with the engine yielding the segments
`[(0.0, 1.5, "A"), (1.5, 3.0, "B")]`, `transcribe_thai` returns plain
text `"A B"` and writes timestamped text
`"[0.00s → 1.50s] A\n[1.50s → 3.00s] B"`. -/
theorem c2_mocked_segments :
    (transcribe_thai ⟨true, true, true, true,
        .ok [⟨0, 150, "A".data⟩, ⟨150, 300, "B".data⟩], true⟩).result
        = some "A B".data
    ∧ (transcribe_thai ⟨true, true, true, true,
        .ok [⟨0, 150, "A".data⟩, ⟨150, 300, "B".data⟩], true⟩).timestampedFile
        = some "[0.00s → 1.50s] A\n[1.50s → 3.00s] B".data := by
  constructor
  · decide
  · decide

/-- Claim C4, counterexample: for an existing non-WAV source whose
conversion produced a scratch WAV, an engine failure returns through the
`except` handler and the scratch file is not deleted. -/
theorem c4_counterexample :
    (transcribe_thai ⟨true, false, true, true, .error (), true⟩).scratchCreated = true
    ∧ (transcribe_thai ⟨true, false, true, true, .error (), true⟩).scratchRemoved = false := by
  decide

/-- Claim C4 (amended): whenever a scratch WAV was produced by the
normalization step, it is deleted before the call returns exactly when
every later step succeeds (model available or loaded, engine call
returns segments, both files written); on any failing path the function
returns with the scratch file still present. -/
theorem c4_scratch_cleanup :
    ∀ a : TranscribeIn, (transcribe_thai a).scratchCreated = true →
      ((transcribe_thai a).scratchRemoved = true ↔
        (a.modelOk = true ∧ (∃ segs, a.engine = .ok segs) ∧ a.writesOk = true)) := by
  intro a hc
  obtain ⟨pe, iw, co, mo, eng, wr⟩ := a
  cases pe <;> cases mo <;> cases wr <;> cases eng <;> simp_all [transcribe_thai]

/-- Witness for `c4_scratch_cleanup`: a converted source whose
transcription succeeds gets its scratch WAV removed. -/
theorem c4_scratch_cleanup_witness :
    (transcribe_thai ⟨true, false, true, true, .ok [], true⟩).scratchRemoved = true := by
  exact (c4_scratch_cleanup ⟨true, false, true, true, .ok [], true⟩ (by decide)).mpr
    ⟨rfl, ⟨[], rfl⟩, rfl⟩

/-- Claim C9: `trim_audio` on an existing source whose audio is shorter
than the requested duration writes a file of the source's original
duration (the Python slice clamps to the audio length); and it returns
`None` rather than raising when the source does not exist, the decode
raises, or the export fails. -/
theorem c9_trim_clamps :
    (∀ (a : TrimIn) (sec len : Nat), a.inputExists = true → a.decode = .ok len →
      a.exportOk = true → len < sec * 1000 → trim_audio a sec = some len)
    ∧ (∀ (a : TrimIn) (sec : Nat), a.inputExists = false → trim_audio a sec = none)
    ∧ (∀ (a : TrimIn) (sec : Nat) (e : Unit), a.decode = .error e → trim_audio a sec = none)
    ∧ (∀ (a : TrimIn) (sec : Nat), a.exportOk = false → trim_audio a sec = none) := by
  refine ⟨?_, ?_, ?_, ?_⟩
  · intro a sec len hex hdec hexp hlt
    simp [trim_audio, hex, hdec, hexp, Nat.min_eq_right (Nat.le_of_lt hlt)]
  · intro a sec hex
    simp [trim_audio, hex]
  · intro a sec e hdec
    cases hie : a.inputExists <;> simp [trim_audio, hdec, hie]
  · intro a sec hexp
    cases hie : a.inputExists
    · simp [trim_audio, hie]
    · cases hdec : a.decode <;> simp [trim_audio, hie, hdec, hexp]

/-- Witness for `c9_trim_clamps`: a 10-second source trimmed to 180
seconds yields a 10-second file, and the three failure modes return
`None`. -/
theorem c9_trim_clamps_witness :
    trim_audio ⟨true, .ok 10000, true⟩ 180 = some 10000
    ∧ trim_audio ⟨false, .ok 10000, true⟩ 180 = none
    ∧ trim_audio ⟨true, .error (), true⟩ 180 = none
    ∧ trim_audio ⟨true, .ok 10000, false⟩ 180 = none := by
  refine ⟨?_, ?_, ?_, ?_⟩
  · exact c9_trim_clamps.1 ⟨true, .ok 10000, true⟩ 180 10000 rfl rfl rfl (by norm_num)
  · exact c9_trim_clamps.2.1 ⟨false, .ok 10000, true⟩ 180 rfl
  · exact c9_trim_clamps.2.2.1 ⟨true, .error (), true⟩ 180 () rfl
  · exact c9_trim_clamps.2.2.2 ⟨true, .ok 10000, false⟩ 180 rfl

lemma setKey_fst_mem (m : List (Str × Option Str)) (k : Str) (v : Option Str) (x : Str) :
    x ∈ (setKey m k v).map Prod.fst ↔ x ∈ m.map Prod.fst ∨ x = k := by
  induction m with
  | nil => simp [setKey]
  | cons p rest ih =>
    obtain ⟨k', v'⟩ := p
    by_cases h : k' = k
    · subst h
      simp [setKey]
      tauto
    · simp [setKey, h, ih]
      tauto

lemma setKey_fst_nodup (m : List (Str × Option Str)) (k : Str) (v : Option Str)
    (h : (m.map Prod.fst).Nodup) : ((setKey m k v).map Prod.fst).Nodup := by
  induction m with
  | nil => simp [setKey]
  | cons p rest ih =>
    obtain ⟨k', v'⟩ := p
    rw [List.map_cons, List.nodup_cons] at h
    by_cases hk : k' = k
    · subst hk
      have hset : setKey ((k', v') :: rest) k' v = (k', v) :: rest := by
        simp [setKey]
      rw [hset, List.map_cons, List.nodup_cons]
      exact h
    · simp only [setKey, if_neg hk]
      rw [List.map_cons, List.nodup_cons]
      constructor
      · intro hmem
        rcases (setKey_fst_mem rest k v k').mp hmem with h1 | h1
        · exact h.1 h1
        · exact hk h1
      · exact ih h.2

lemma lookupB_setKey_self (m : List (Str × Option Str)) (k : Str) (v : Option Str) :
    lookupB (setKey m k v) k = some v := by
  induction m with
  | nil => simp [setKey, lookupB]
  | cons p rest ih =>
    obtain ⟨k', v'⟩ := p
    by_cases h : k' = k
    · subst h
      simp [setKey, lookupB]
    · simp [setKey, lookupB, h, ih]

lemma lookupB_setKey_other (m : List (Str × Option Str)) (k : Str) (v : Option Str)
    (x : Str) (h : x ≠ k) : lookupB (setKey m k v) x = lookupB m x := by
  induction m with
  | nil =>
    simp only [setKey, lookupB]
    rw [if_neg (fun hh => h hh.symm)]
  | cons p rest ih =>
    obtain ⟨k', v'⟩ := p
    by_cases hk : k' = k
    · subst hk
      have : ¬ k' = x := fun hh => h hh.symm
      simp [setKey, lookupB, this]
    · simp only [setKey, if_neg hk, lookupB]
      by_cases hx : k' = x
      · simp [hx]
      · simp [hx, ih]

lemma foldDict_fst_mem (v : Str → Option Str) (files : List Str) :
    ∀ (m : List (Str × Option Str)) (x : Str),
      x ∈ (foldDict v files m).map Prod.fst ↔ x ∈ m.map Prod.fst ∨ x ∈ files := by
  induction files with
  | nil => intro m x; simp [foldDict]
  | cons f fs ih =>
    intro m x
    have h1 : foldDict v (f :: fs) m = foldDict v fs (setKey m f (v f)) := rfl
    rw [h1, ih]
    rw [setKey_fst_mem]
    simp
    tauto

lemma foldDict_fst_nodup (v : Str → Option Str) (files : List Str) :
    ∀ m : List (Str × Option Str), (m.map Prod.fst).Nodup →
      ((foldDict v files m).map Prod.fst).Nodup := by
  induction files with
  | nil => intro m h; exact h
  | cons f fs ih =>
    intro m h
    exact ih (setKey m f (v f)) (setKey_fst_nodup m f (v f) h)

lemma foldDict_lookup_not_mem (v : Str → Option Str) (files : List Str) :
    ∀ (m : List (Str × Option Str)) (x : Str), x ∉ files →
      lookupB (foldDict v files m) x = lookupB m x := by
  induction files with
  | nil => intro m x _; rfl
  | cons f fs ih =>
    intro m x hx
    have h1 : foldDict v (f :: fs) m = foldDict v fs (setKey m f (v f)) := rfl
    rw [h1, ih (setKey m f (v f)) x (fun h => hx (by simp [h]))]
    exact lookupB_setKey_other m f (v f) x (fun h => hx (by simp [h]))

lemma foldDict_lookup_mem (v : Str → Option Str) (files : List Str) :
    ∀ (m : List (Str × Option Str)) (x : Str), x ∈ files →
      lookupB (foldDict v files m) x = some (v x) := by
  induction files with
  | nil => intro m x hx; simp at hx
  | cons f fs ih =>
    intro m x hx
    have h1 : foldDict v (f :: fs) m = foldDict v fs (setKey m f (v f)) := rfl
    by_cases hfs : x ∈ fs
    · rw [h1, ih (setKey m f (v f)) x hfs]
    · have hxf : x = f := by
        rcases List.mem_cons.mp hx with h | h
        · exact h
        · exact absurd h hfs
      subst hxf
      rw [h1, foldDict_lookup_not_mem v fs (setKey m x (v x)) x hfs]
      exact lookupB_setKey_self m x (v x)

lemma transcribe_batch_eq (inp : BatchInput) (runOne : Str → Except Unit (Option Str))
    (hne : batchFiles inp ≠ []) :
    transcribe_batch inp true runOne
      = foldDict (fun f => match runOne f with | .ok r => r | .error _ => none)
          (batchFiles inp) [] := by
  simp only [transcribe_batch, if_neg hne]
  rfl

/-- Claim C6: for every explicit input list (with a model available),
the batch result dict has no duplicate keys and its key set is exactly
the set of requested sources. -/
theorem c6_batch_keys :
    ∀ (files : List Str) (runOne : Str → Except Unit (Option Str)),
      ((transcribe_batch (.listIn files) true runOne).map Prod.fst).Nodup
      ∧ ∀ f : Str, f ∈ (transcribe_batch (.listIn files) true runOne).map Prod.fst
          ↔ f ∈ files := by
  intro files runOne
  by_cases hf : files = []
  · subst hf
    constructor
    · simp [transcribe_batch, batchFiles]
    · intro f
      simp [transcribe_batch, batchFiles]
  · have hne : batchFiles (.listIn files) ≠ [] := hf
    rw [transcribe_batch_eq (.listIn files) runOne hne]
    constructor
    · exact foldDict_fst_nodup _ _ [] (by simp)
    · intro f
      rw [foldDict_fst_mem]
      simp [batchFiles]

/-- Claim C8: per-file failures never abort a batch.  A missing source
makes `transcribe_thai` return the `None` outcome without raising (the
model is total), and a source whose processing raises during the batch
is recorded as `None` in the results while every requested source still
gets an entry. -/
theorem c8_per_file_failures :
    (∀ a : TranscribeIn, a.pathExists = false →
      transcribe_thai a = ⟨none, none, none, false, false⟩)
    ∧ (∀ (files : List Str) (runOne : Str → Except Unit (Option Str)) (f : Str),
      f ∈ files → runOne f = .error () →
      lookupB (transcribe_batch (.listIn files) true runOne) f = some none
      ∧ ∀ g ∈ files,
          g ∈ (transcribe_batch (.listIn files) true runOne).map Prod.fst) := by
  constructor
  · intro a hpe
    simp [transcribe_thai, hpe]
  · intro files runOne f hf herr
    have hne : batchFiles (.listIn files) ≠ [] := by
      intro h
      rw [show batchFiles (.listIn files) = files from rfl] at h
      subst h
      simp at hf
    constructor
    · rw [transcribe_batch_eq (.listIn files) runOne hne,
        show batchFiles (.listIn files) = files from rfl,
        foldDict_lookup_mem _ _ [] f hf, herr]
    · intro g hg
      rw [transcribe_batch_eq (.listIn files) runOne hne, foldDict_fst_mem]
      exact Or.inr hg

/-- Witness for `c8_per_file_failures`: a missing source yields a `None`
result, and in a two-source batch where the first source raises, the
first is recorded as `None` and the second still gets an entry. -/
theorem c8_per_file_failures_witness :
    (transcribe_thai ⟨false, true, true, true, .ok [], true⟩).result = none
    ∧ lookupB (transcribe_batch (.listIn ["a".data, "b".data]) true
        (fun f => if f = "a".data then .error () else .ok (some "t".data)))
        "a".data = some none
    ∧ "b".data ∈ (transcribe_batch (.listIn ["a".data, "b".data]) true
        (fun f => if f = "a".data then .error () else .ok (some "t".data))).map
        Prod.fst := by
  refine ⟨?_, ?_, ?_⟩
  · rw [c8_per_file_failures.1 ⟨false, true, true, true, .ok [], true⟩ rfl]
  · exact (c8_per_file_failures.2 ["a".data, "b".data] _ "a".data (by simp) (by simp)).1
  · exact (c8_per_file_failures.2 ["a".data, "b".data] _ "a".data (by simp) (by simp)).2
      "b".data (by simp)

/-- Claim C10: the audio/video extension allow-list filters only
directory discovery.  Every path of an explicit input list gets a result
entry whatever its extension, while in folder mode every key of the
result passed the extension check. -/
theorem c10_ext_allowlist_scope :
    (∀ (files : List Str) (runOne : Str → Except Unit (Option Str)) (f : Str),
      f ∈ files →
      f ∈ (transcribe_batch (.listIn files) true runOne).map Prod.fst)
    ∧ (∀ (walk : List Str) (runOne : Str → Except Unit (Option Str)) (f : Str),
      f ∈ (transcribe_batch (.folderIn walk) true runOne).map Prod.fst →
      hasAudioExt f = true) := by
  constructor
  · intro files runOne f hf
    have hne : batchFiles (.listIn files) ≠ [] := by
      intro h
      rw [show batchFiles (.listIn files) = files from rfl] at h
      subst h
      simp at hf
    rw [transcribe_batch_eq (.listIn files) runOne hne, foldDict_fst_mem]
    exact Or.inr hf
  · intro walk runOne f hf
    by_cases hw : batchFiles (.folderIn walk) = []
    · rw [transcribe_batch] at hf
      rw [hw] at hf
      simp at hf
    · rw [transcribe_batch_eq (.folderIn walk) runOne hw, foldDict_fst_mem] at hf
      rcases hf with h | h
      · simp at h
      · exact (List.mem_filter.mp h).2

/-- Witness for `c10_ext_allowlist_scope`: a path with an extension
outside the allow-list, passed in an explicit list, is still
processed. -/
theorem c10_ext_allowlist_scope_witness :
    "clip.xyz".data ∈ (transcribe_batch (.listIn ["clip.xyz".data]) true
        (fun _ => .ok none)).map Prod.fst
    ∧ hasAudioExt "clip.xyz".data = false := by
  constructor
  · exact c10_ext_allowlist_scope.1 ["clip.xyz".data] (fun _ => .ok none)
      "clip.xyz".data (by simp)
  · decide

lemma bump_lookup_self (m : List (Str × Nat)) (t : Str) :
    lookupC (bump m t) t = some ((lookupC m t).getD 0 + 1) := by
  induction m with
  | nil => simp [bump, lookupC]
  | cons p rest ih =>
    obtain ⟨k, v⟩ := p
    by_cases h : k = t
    · subst h
      simp [bump, lookupC]
    · simp [bump, lookupC, h, ih]

lemma bump_lookup_other (m : List (Str × Nat)) (t x : Str) (h : x ≠ t) :
    lookupC (bump m t) x = lookupC m x := by
  induction m with
  | nil =>
    simp only [bump, lookupC]
    rw [if_neg (fun hh => h hh.symm)]
  | cons p rest ih =>
    obtain ⟨k, v⟩ := p
    by_cases hk : k = t
    · subst hk
      have hkx : ¬ k = x := fun hh => h hh.symm
      simp [bump, lookupC, hkx]
    · simp only [bump, if_neg hk, lookupC]
      by_cases hx : k = x
      · simp [hx]
      · simp [hx, ih]

lemma mem_bump (m : List (Str × Nat)) (t : Str) (p : Str × Nat) (h : p ∈ bump m t) :
    p ∈ m ∨ p.1 = t := by
  induction m with
  | nil =>
    simp [bump] at h
    simp [h]
  | cons q rest ih =>
    obtain ⟨k, v⟩ := q
    by_cases hk : k = t
    · subst hk
      simp only [bump, if_pos rfl] at h
      rcases List.mem_cons.mp h with h1 | h1
      · subst h1
        exact Or.inr rfl
      · exact Or.inl (List.mem_cons.mpr (Or.inr h1))
    · simp only [bump, if_neg hk] at h
      rcases List.mem_cons.mp h with h1 | h1
      · subst h1
        exact Or.inl (List.mem_cons.mpr (Or.inl rfl))
      · rcases ih h1 with h2 | h2
        · exact Or.inl (List.mem_cons.mpr (Or.inr h2))
        · exact Or.inr h2

lemma bump_fst_mem (m : List (Str × Nat)) (t x : Str) :
    x ∈ (bump m t).map Prod.fst ↔ x ∈ m.map Prod.fst ∨ x = t := by
  induction m with
  | nil => simp [bump]
  | cons p rest ih =>
    obtain ⟨k, v⟩ := p
    by_cases h : k = t
    · subst h
      simp only [bump, if_pos rfl]
      simp
      tauto
    · simp only [bump, if_neg h]
      simp [ih]
      tauto

lemma bump_fst_nodup (m : List (Str × Nat)) (t : Str)
    (h : (m.map Prod.fst).Nodup) : ((bump m t).map Prod.fst).Nodup := by
  induction m with
  | nil => simp [bump]
  | cons p rest ih =>
    obtain ⟨k, v⟩ := p
    rw [List.map_cons, List.nodup_cons] at h
    by_cases hk : k = t
    · subst hk
      have hb : bump ((k, v) :: rest) k = (k, v + 1) :: rest := by simp [bump]
      rw [hb, List.map_cons, List.nodup_cons]
      exact h
    · simp only [bump, if_neg hk]
      rw [List.map_cons, List.nodup_cons]
      constructor
      · intro hmem
        rcases (bump_fst_mem rest t k).mp hmem with h1 | h1
        · exact h.1 h1
        · exact hk h1
      · exact ih h.2

lemma lookupC_mem (m : List (Str × Nat)) (t : Str) (c : Nat)
    (h : lookupC m t = some c) : (t, c) ∈ m := by
  induction m with
  | nil => simp [lookupC] at h
  | cons p rest ih =>
    obtain ⟨k, v⟩ := p
    by_cases hk : k = t
    · subst hk
      simp [lookupC] at h
      subst h
      exact List.mem_cons.mpr (Or.inl rfl)
    · simp only [lookupC, if_neg hk] at h
      exact List.mem_cons.mpr (Or.inr (ih h))

lemma mem_lookupC (m : List (Str × Nat)) (hnd : (m.map Prod.fst).Nodup)
    (t : Str) (c : Nat) (h : (t, c) ∈ m) : lookupC m t = some c := by
  induction m with
  | nil => simp at h
  | cons p rest ih =>
    obtain ⟨k, v⟩ := p
    rw [List.map_cons, List.nodup_cons] at hnd
    rcases List.mem_cons.mp h with h1 | h1
    · rw [Prod.ext_iff] at h1
      obtain ⟨h1a, h1b⟩ := h1
      simp at h1a h1b
      subst h1a
      subst h1b
      simp [lookupC]
    · have hk : ¬ k = t := by
        intro hk
        subst hk
        exact hnd.1 (List.mem_map.mpr ⟨(k, c), h1, rfl⟩)
      simp only [lookupC, if_neg hk]
      exact ih hnd.2 h1

lemma lineCountsStep_lookup_other (m : List (Str × Nat)) (line t : Str)
    (h : extract_text_from_timestamped line ≠ t) :
    lookupC (lineCountsStep m line) t = lookupC m t := by
  unfold lineCountsStep
  split_ifs with hu
  · exact bump_lookup_other m _ t (fun hh => h hh.symm)
  · rfl

lemma lineCounts_fold_lookup (t : Str) (ht : trackedText t) :
    ∀ (lines : List Str) (m : List (Str × Nat)),
      lookupC (lines.foldl lineCountsStep m) t
        = if occurrences t lines = 0 then lookupC m t
          else some ((lookupC m t).getD 0 + occurrences t lines) := by
  intro lines
  induction lines with
  | nil =>
    intro m
    simp [occurrences]
  | cons line rest ih =>
    intro m
    rw [List.foldl_cons, ih]
    by_cases hline : extract_text_from_timestamped line = t
    · have hstep : lineCountsStep m line = bump m t := by
        unfold lineCountsStep
        rw [hline, if_pos ht]
      have h1 : occurrences t (line :: rest) = occurrences t rest + 1 := by
        simp [occurrences, List.countP_cons, hline]
      rw [hstep, bump_lookup_self, h1]
      rcases Nat.eq_zero_or_pos (occurrences t rest) with h0 | hpos
      · rw [h0]
        simp
      · rw [if_neg (by omega), if_neg (by omega)]
        simp only [Option.getD_some]
        congr 1
        omega
    · have h1 : occurrences t (line :: rest) = occurrences t rest := by
        simp [occurrences, List.countP_cons, hline]
      rw [lineCountsStep_lookup_other m line t hline, h1]

lemma lineCounts_lookup (lines : List Str) (t : Str) (ht : trackedText t) :
    lookupC (lineCounts lines) t
      = if occurrences t lines = 0 then none else some (occurrences t lines) := by
  unfold lineCounts
  rw [lineCounts_fold_lookup t ht lines []]
  simp [lookupC]

lemma lineCounts_fold_nodup :
    ∀ (lines : List Str) (m : List (Str × Nat)), (m.map Prod.fst).Nodup →
      ((lines.foldl lineCountsStep m).map Prod.fst).Nodup := by
  intro lines
  induction lines with
  | nil => intro m h; exact h
  | cons line rest ih =>
    intro m h
    rw [List.foldl_cons]
    refine ih (lineCountsStep m line) ?_
    unfold lineCountsStep
    split_ifs with hu
    · exact bump_fst_nodup m _ h
    · exact h

lemma lineCounts_keys_tracked :
    ∀ (lines : List Str) (m : List (Str × Nat)), (∀ p ∈ m, trackedText p.1) →
      ∀ p ∈ lines.foldl lineCountsStep m, trackedText p.1 := by
  intro lines
  induction lines with
  | nil => intro m h; exact h
  | cons line rest ih =>
    intro m h
    rw [List.foldl_cons]
    refine ih (lineCountsStep m line) ?_
    intro p hp
    unfold lineCountsStep at hp
    split_ifs at hp with hu
    · rcases mem_bump m _ p hp with h1 | h1
      · exact h p h1
      · rw [h1]
        exact hu
    · exact h p hp

/-- Claim C5: for every tracked text (non-empty, at least 10 characters
long), a reported count equals the total number of lines of the file
whose extracted text is that text, first occurrence included, and the
text appears in the finding exactly when that total is greater than 1. -/
theorem c5_duplicate_counts :
    ∀ (lines : List Str) (t : Str), trackedText t →
      (∀ c : Nat, (t, c) ∈ check_duplicates_in_file lines → c = occurrences t lines)
      ∧ ((∃ c : Nat, (t, c) ∈ check_duplicates_in_file lines)
          ↔ 1 < occurrences t lines) := by
  intro lines t ht
  have hnodup : ((lineCounts lines).map Prod.fst).Nodup :=
    lineCounts_fold_nodup lines [] (by simp)
  have hlk := lineCounts_lookup lines t ht
  have key : ∀ c : Nat, (t, c) ∈ check_duplicates_in_file lines →
      c = occurrences t lines ∧ 1 < c := by
    intro c hc
    have hsplit := List.mem_filter.mp hc
    have hmemC : (t, c) ∈ lineCounts lines := hsplit.1
    have hcgt : 1 < c := by simpa using hsplit.2
    have heq := mem_lookupC (lineCounts lines) hnodup t c hmemC
    rw [hlk] at heq
    by_cases h0 : occurrences t lines = 0
    · rw [if_pos h0] at heq
      exact absurd heq (by simp)
    · rw [if_neg h0] at heq
      rw [Option.some_inj] at heq
      exact ⟨heq.symm, hcgt⟩
  constructor
  · intro c hc
    exact (key c hc).1
  · constructor
    · rintro ⟨c, hc⟩
      obtain ⟨hceq, hcgt⟩ := key c hc
      omega
    · intro hocc
      have h0 : occurrences t lines ≠ 0 := by omega
      have hsome : lookupC (lineCounts lines) t = some (occurrences t lines) := by
        rw [hlk, if_neg h0]
      have hmem := lookupC_mem (lineCounts lines) t _ hsome
      exact ⟨occurrences t lines,
        List.mem_filter.mpr ⟨hmem, by simpa using hocc⟩⟩

/-- Witness for `c5_duplicate_counts`: a 10-character text occurring on
exactly two lines is reported. -/
theorem c5_duplicate_counts_witness :
    1 < occurrences "0123456789".data ["0123456789".data, "0123456789".data]
    ∧ ∃ c : Nat, ("0123456789".data, c) ∈ check_duplicates_in_file
        ["0123456789".data, "0123456789".data] := by
  refine ⟨by decide, ?_⟩
  exact (c5_duplicate_counts ["0123456789".data, "0123456789".data]
    "0123456789".data (by decide)).2.mpr (by decide)

/-- Claim C7: a text shorter than 10 characters never appears in a
file's duplicate finding, however often it repeats. -/
theorem c7_short_texts_never_reported :
    ∀ (lines : List Str) (t : Str) (c : Nat), t.length < 10 →
      (t, c) ∉ check_duplicates_in_file lines := by
  intro lines t c hlen hmem
  have h1 : (t, c) ∈ lineCounts lines := (List.mem_filter.mp hmem).1
  have h2 : trackedText t :=
    lineCounts_keys_tracked lines [] (by simp) (t, c) h1
  have h3 : 10 ≤ t.length := h2.2
  omega

/-- Witness for `c7_short_texts_never_reported`: a 5-character text
repeated twice is not reported. -/
theorem c7_short_texts_never_reported_witness :
    ("short".data, 2) ∉ check_duplicates_in_file ["short".data, "short".data] :=
  c7_short_texts_never_reported ["short".data, "short".data] "short".data 2
    (by decide)

lemma natDigsF_zero (f : Nat) : natDigsF f 0 = [] := by
  cases f <;> rfl

lemma natDigsF_stable : ∀ (f1 f2 n : Nat), n ≤ f1 → n ≤ f2 →
    natDigsF f1 n = natDigsF f2 n := by
  intro f1
  induction f1 with
  | zero =>
    intro f2 n h1 h2
    have h0 : n = 0 := Nat.le_zero.mp h1
    subst h0
    rw [natDigsF_zero, natDigsF_zero]
  | succ g ih =>
    intro f2 n h1 h2
    cases n with
    | zero => rw [natDigsF_zero, natDigsF_zero]
    | succ m =>
      cases f2 with
      | zero => omega
      | succ g2 =>
        have hd : (m + 1) / 10 < m + 1 := Nat.div_lt_self (Nat.succ_pos m) (by norm_num)
        simp only [natDigsF]
        rw [ih g2 ((m + 1) / 10) (by omega) (by omega)]

lemma natDigs_eq (n : Nat) (h : 0 < n) :
    natDigs n = natDigs (n / 10) ++ [Nat.digitChar (n % 10)] := by
  obtain ⟨m, rfl⟩ : ∃ m, n = m + 1 := ⟨n - 1, by omega⟩
  have hd : (m + 1) / 10 < m + 1 := Nat.div_lt_self (Nat.succ_pos m) (by norm_num)
  unfold natDigs
  simp only [natDigsF]
  rw [natDigsF_stable m ((m + 1) / 10) ((m + 1) / 10) (by omega) (by omega)]

lemma digitChar_isDigit (d : Nat) (h : d < 10) : (Nat.digitChar d).isDigit = true := by
  interval_cases d <;> decide

lemma digitChar_val (d : Nat) (h : d < 10) :
    (Nat.digitChar d).toNat - '0'.toNat = d := by
  interval_cases d <;> decide

lemma natDigs_ne_nil (n : Nat) (h : 0 < n) : natDigs n ≠ [] := by
  rw [natDigs_eq n h]
  simp

lemma natDigs_digits (n : Nat) : ∀ ch ∈ natDigs n, ch.isDigit = true := by
  induction n using Nat.strong_induction_on with
  | _ n ih =>
    intro ch hch
    rcases Nat.eq_zero_or_pos n with h0 | hp
    · subst h0
      simp [natDigs, natDigsF] at hch
    · rw [natDigs_eq n hp] at hch
      rcases List.mem_append.mp hch with h | h
      · exact ih (n / 10) (Nat.div_lt_self hp (by norm_num)) ch h
      · rw [List.mem_singleton] at h
        subst h
        exact digitChar_isDigit _ (Nat.mod_lt n (by norm_num))

lemma digitsVal_append_singleton (l : Str) (c : Char) :
    digitsVal (l ++ [c]) = 10 * digitsVal l + (c.toNat - '0'.toNat) := by
  simp [digitsVal, List.foldl_append]

lemma natDigs_val (n : Nat) : digitsVal (natDigs n) = n := by
  induction n using Nat.strong_induction_on with
  | _ n ih =>
    rcases Nat.eq_zero_or_pos n with h0 | hp
    · subst h0
      rfl
    · rw [natDigs_eq n hp, digitsVal_append_singleton,
        ih (n / 10) (Nat.div_lt_self hp (by norm_num)),
        digitChar_val _ (Nat.mod_lt n (by norm_num))]
      omega

lemma natDigs_head_ne_zero : ∀ n : Nat, 0 < n → ∀ c : Char,
    (natDigs n).head? = some c → c ≠ '0' := by
  intro n
  induction n using Nat.strong_induction_on with
  | _ n ih =>
    intro hp c hc
    rcases Nat.lt_or_ge n 10 with hlt | hge
    · have h10 : n / 10 = 0 := Nat.div_eq_of_lt hlt
      rw [natDigs_eq n hp, h10, show natDigs 0 = [] from rfl] at hc
      simp at hc
      subst hc
      have hmod : n % 10 = n := Nat.mod_eq_of_lt hlt
      rw [hmod]
      interval_cases n <;> decide
    · have hp10 : 0 < n / 10 := Nat.div_pos hge (by norm_num)
      rw [natDigs_eq n hp] at hc
      obtain ⟨d, rest, hd⟩ : ∃ d rest, natDigs (n / 10) = d :: rest := by
        cases hnd : natDigs (n / 10) with
        | nil => exact absurd hnd (natDigs_ne_nil _ hp10)
        | cons d rest => exact ⟨d, rest, rfl⟩
      rw [hd] at hc
      have hdc : d = c := by simpa using hc
      subst hdc
      exact ih (n / 10) (Nat.div_lt_self hp (by norm_num)) hp10 d (by rw [hd]; rfl)

lemma fmtCenti_chars (c : Nat) : ∀ ch ∈ fmtCenti c, ch.isDigit = true ∨ ch = '.' := by
  intro ch hch
  unfold fmtCenti at hch
  rcases List.mem_append.mp hch with h | h
  · unfold natStr at h
    by_cases h0 : c / 100 = 0
    · rw [if_pos h0, List.mem_singleton] at h
      subst h
      exact Or.inl (by decide)
    · rw [if_neg h0] at h
      exact Or.inl (natDigs_digits _ ch h)
  · rcases List.mem_cons.mp h with h1 | h1
    · exact Or.inr h1
    · rcases List.mem_cons.mp h1 with h2 | h2
      · subst h2
        exact Or.inl (digitChar_isDigit _ (Nat.mod_lt _ (by norm_num)))
      · rcases List.mem_cons.mp h2 with h3 | h3
        · subst h3
          exact Or.inl (digitChar_isDigit _ (Nat.mod_lt _ (by norm_num)))
        · simp at h3

lemma sepJoin_cons (l : Str) (ls : List Str) (h : ls ≠ []) :
    sepJoin (l :: ls) = l ++ '\n' :: sepJoin ls := by
  cases ls with
  | nil => exact absurd rfl h
  | cons a t => rfl

lemma sepJoin_append_single (init : List Str) (l : Str) :
    sepJoin (init ++ [l]) = (init.map (fun x => x ++ ['\n'])).flatten ++ l := by
  induction init with
  | nil => simp [sepJoin]
  | cons a t ih =>
    rw [List.cons_append, sepJoin_cons a (t ++ [l]) (by simp), ih]
    simp

lemma dropWhile_eq_self_of_head {p : Char → Bool} (l : Str) (c : Char)
    (h : l.head? = some c) (hp : p c = false) : l.dropWhile p = l := by
  cases l with
  | nil => simp at h
  | cons a t =>
    have hac : a = c := by simpa using h
    subst hac
    rw [List.dropWhile_cons]
    simp [hp]

lemma pyStrip_sandwich (u : Str) (c : Char)
    (hh : (u ++ [c]).head? = some '[') (hc : pyIsSpace c = false) :
    pyStrip ((u ++ [c]) ++ ['\n']) = u ++ [c] := by
  unfold pyStrip
  have hh2 : ((u ++ [c]) ++ ['\n']).head? = some '[' := by
    cases hu : u ++ [c] with
    | nil => simp at hu
    | cons x xs =>
      rw [hu] at hh
      have : x = '[' := by simpa using hh
      subst this
      simp
  rw [dropWhile_eq_self_of_head ((u ++ [c]) ++ ['\n']) '[' hh2 (by decide)]
  have h2 : ((u ++ [c]) ++ ['\n']).reverse = '\n' :: c :: u.reverse := by
    simp [List.reverse_append]
  rw [h2, List.dropWhile_cons]
  rw [if_pos (show pyIsSpace '\n' = true from rfl)]
  simp [List.dropWhile_cons, hc]

lemma strip_join_lines (lines : List Str)
    (hhead : ∀ l0, lines.head? = some l0 → ∃ y, l0 = '[' :: y)
    (hlast : ∀ ln, lines.getLast? = some ln →
      ∃ u c, ln = u ++ [c] ∧ pyIsSpace c = false) :
    pyStrip ((lines.map (fun x => x ++ ['\n'])).flatten) = sepJoin lines := by
  rcases eq_or_ne lines [] with rfl | hne
  · rfl
  · obtain ⟨init, ln, hdecomp⟩ : ∃ init ln, lines = init ++ [ln] :=
      ⟨lines.dropLast, lines.getLast hne, (List.dropLast_append_getLast hne).symm⟩
    obtain ⟨u, c, hln, hc⟩ := hlast ln (by rw [hdecomp]; exact List.getLast?_concat init)
    subst hdecomp
    subst hln
    have hflat : ((init ++ [u ++ [c]]).map (fun x => x ++ ['\n'])).flatten
        = (((init.map (fun x => x ++ ['\n'])).flatten ++ u) ++ [c]) ++ ['\n'] := by
      simp [List.map_append, List.flatten_append, List.append_assoc]
    rw [hflat]
    have hh : (((init.map (fun x => x ++ ['\n'])).flatten ++ u) ++ [c]).head?
        = some '[' := by
      cases init with
      | nil =>
        obtain ⟨y, hy⟩ := hhead (u ++ [c]) (by simp)
        simp only [List.map_nil, List.flatten_nil, List.nil_append]
        rw [hy]
        rfl
      | cons l0 t =>
        obtain ⟨y, hy⟩ := hhead l0 (by simp)
        subst hy
        simp
    rw [pyStrip_sandwich ((init.map (fun x => x ++ ['\n'])).flatten ++ u) c hh hc]
    rw [sepJoin_append_single init (u ++ [c])]
    simp [List.append_assoc]

lemma splitLines_no_newline : ∀ l : Str, '\n' ∉ l → splitLines l = [l] := by
  intro l
  induction l with
  | nil => intro _; rfl
  | cons c r ih =>
    intro h
    have hc : ¬ c = '\n' := fun hh => h (by simp [hh])
    have hr : '\n' ∉ r := fun hh => h (by simp [hh])
    simp only [splitLines, if_neg hc, ih hr]

lemma splitLines_append : ∀ (l r : Str), '\n' ∉ l →
    splitLines (l ++ '\n' :: r) = l :: splitLines r := by
  intro l
  induction l with
  | nil => intro r _; simp [splitLines]
  | cons c t ih =>
    intro r h
    have hc : ¬ c = '\n' := fun hh => h (by simp [hh])
    have ht : '\n' ∉ t := fun hh => h (by simp [hh])
    rw [List.cons_append]
    simp only [splitLines, if_neg hc]
    rw [ih r ht]

lemma splitLines_sepJoin : ∀ lines : List Str, lines ≠ [] →
    (∀ l ∈ lines, '\n' ∉ l) → splitLines (sepJoin lines) = lines := by
  intro lines
  induction lines with
  | nil => intro h; exact absurd rfl h
  | cons l ls ih =>
    intro _ hnl
    cases ls with
    | nil => simpa [sepJoin] using splitLines_no_newline l (hnl l (by simp))
    | cons a t =>
      rw [sepJoin_cons l (a :: t) (by simp),
        splitLines_append l (sepJoin (a :: t)) (hnl l (by simp)),
        ih (by simp) (fun x hx => hnl x (by simp [hx]))]

lemma not_mem_cons {c a : Char} {l : Str} (h1 : c ≠ a) (h2 : c ∉ l) :
    c ∉ a :: l := by
  intro h
  rcases List.mem_cons.mp h with h | h
  · exact h1 h
  · exact h2 h

lemma not_mem_append {c : Char} {l1 l2 : Str} (h1 : c ∉ l1) (h2 : c ∉ l2) :
    c ∉ l1 ++ l2 := by
  intro h
  rcases List.mem_append.mp h with h | h
  · exact h1 h
  · exact h2 h

lemma newline_not_mem_fmtCenti (c : Nat) : '\n' ∉ fmtCenti c := by
  intro hm
  rcases fmtCenti_chars c '\n' hm with h2 | h2
  · exact absurd h2 (by decide)
  · exact absurd h2 (by decide)

lemma newline_not_mem_segLine (s : TranscriptSegment) (h : '\n' ∉ s.text) :
    '\n' ∉ segLine s := by
  unfold segLine
  refine not_mem_cons (by decide) ?_
  refine not_mem_append (newline_not_mem_fmtCenti s.start) ?_
  refine not_mem_cons (by decide) ?_
  refine not_mem_cons (by decide) ?_
  refine not_mem_cons (by decide) ?_
  refine not_mem_cons (by decide) ?_
  refine not_mem_append (newline_not_mem_fmtCenti s.stop) ?_
  refine not_mem_cons (by decide) ?_
  refine not_mem_cons (by decide) ?_
  refine not_mem_cons (by decide) ?_
  exact h

lemma segLine_concat (s : TranscriptSegment) (t : Str) (c : Char)
    (h : s.text = t ++ [c]) :
    segLine s = ('[' :: (fmtCenti s.start ++ 's' :: ' ' :: '→' :: ' ' ::
      (fmtCenti s.stop ++ 's' :: ']' :: ' ' :: t))) ++ [c] := by
  unfold segLine
  rw [h]
  simp [List.append_assoc]

/-- Claim C3: for engine segments whose texts contain no newline and
whose last text ends in a non-whitespace character, the timestamped file
content written by `transcribe_thai` is exactly the `segLine`s of the
segments joined by single newlines with no trailing newline (i.e. the
accumulated per-segment lines trimmed of outer whitespace), so splitting
the content on newlines yields exactly one line per segment; and every
seconds value is printed as a natural-width integer part (no leading
zero padding) followed by `.` and exactly two fractional digits whose
values are the centisecond remainder. -/
theorem c3_timestamped_format :
    (∀ (a : TranscribeIn) (segs : List TranscriptSegment),
      a.pathExists = true → a.modelOk = true → a.engine = .ok segs →
      a.writesOk = true →
      (∀ s ∈ segs, '\n' ∉ s.text) →
      (∀ s, segs.getLast? = some s →
        ∃ t c, s.text = t ++ [c] ∧ pyIsSpace c = false) →
      (transcribe_thai a).timestampedFile = some (sepJoin (segs.map segLine))
      ∧ (segs ≠ [] → splitLines (sepJoin (segs.map segLine)) = segs.map segLine))
    ∧ (∀ c : Nat, ∃ ip : Str,
      fmtCenti c = ip ++ '.' :: [Nat.digitChar (c / 10 % 10), Nat.digitChar (c % 10)]
      ∧ ip ≠ [] ∧ (∀ ch ∈ ip, ch.isDigit = true) ∧ digitsVal ip = c / 100
      ∧ (ip.head? = some '0' → ip = ['0'])
      ∧ digitsVal [Nat.digitChar (c / 10 % 10), Nat.digitChar (c % 10)] = c % 100) := by
  constructor
  · intro a segs hpe hmo heng hw hnl hlast
    constructor
    · have h1 : (transcribe_thai a).timestampedFile
          = some (pyStrip (timestampedText segs)) := by
        simp [transcribe_thai, hpe, hmo, heng, hw]
      rw [h1]
      have h2 : timestampedText segs
          = ((segs.map segLine).map (fun x => x ++ ['\n'])).flatten := by
        unfold timestampedText
        rw [List.map_map]
        rfl
      rw [h2]
      refine congrArg some (strip_join_lines (segs.map segLine) ?_ ?_)
      · intro l0 h
        rw [List.head?_map] at h
        cases hh0 : segs.head? with
        | none => rw [hh0] at h; simp at h
        | some s =>
          rw [hh0] at h
          have hls : segLine s = l0 := by simpa using h
          rw [← hls]
          exact ⟨_, rfl⟩
      · intro ln h
        rw [List.getLast?_map] at h
        cases hsl : segs.getLast? with
        | none => rw [hsl] at h; simp at h
        | some s =>
          rw [hsl] at h
          have hls : segLine s = ln := by simpa using h
          obtain ⟨t, c, htext, hc⟩ := hlast s hsl
          refine ⟨'[' :: (fmtCenti s.start ++ 's' :: ' ' :: '→' :: ' ' ::
            (fmtCenti s.stop ++ 's' :: ']' :: ' ' :: t)), c, ?_, hc⟩
          rw [← hls]
          exact segLine_concat s t c htext
    · intro hne
      refine splitLines_sepJoin (segs.map segLine) (by simpa using hne) ?_
      intro l hl
      obtain ⟨s, hs, rfl⟩ := List.mem_map.mp hl
      exact newline_not_mem_segLine s (hnl s hs)
  · intro c
    refine ⟨natStr (c / 100), rfl, ?_, ?_, ?_, ?_, ?_⟩
    · unfold natStr
      split_ifs with h0
      · simp
      · exact natDigs_ne_nil _ (Nat.pos_of_ne_zero h0)
    · intro ch hch
      unfold natStr at hch
      split_ifs at hch with h0
      · rw [List.mem_singleton] at hch
        subst hch
        decide
      · exact natDigs_digits _ ch hch
    · unfold natStr
      split_ifs with h0
      · rw [h0]
        decide
      · exact natDigs_val _
    · intro hhead
      unfold natStr at hhead ⊢
      split_ifs at hhead ⊢ with h0
      · rfl
      · exact absurd rfl
          (natDigs_head_ne_zero _ (Nat.pos_of_ne_zero h0) '0' hhead)
    · have e1 := digitChar_val (c / 10 % 10) (Nat.mod_lt _ (by norm_num))
      have e2 := digitChar_val (c % 10) (Nat.mod_lt _ (by norm_num))
      simp [digitsVal]
      rw [show (48 : Nat) = '0'.toNat from rfl, e1, e2]
      omega

/-- Witness for `c3_timestamped_format`: one segment `[12.34s → 15.02s] hi`. -/
theorem c3_timestamped_format_witness :
    (transcribe_thai ⟨true, true, true, true,
        .ok [⟨1234, 1502, "hi".data⟩], true⟩).timestampedFile
      = some (sepJoin ([⟨1234, 1502, "hi".data⟩].map segLine)) := by
  exact (c3_timestamped_format.1
    ⟨true, true, true, true, .ok [⟨1234, 1502, "hi".data⟩], true⟩
    [⟨1234, 1502, "hi".data⟩] rfl rfl rfl rfl
    (by
      intro s hs
      rw [List.mem_singleton] at hs
      subst hs
      decide)
    (by
      intro s hs
      obtain rfl : (⟨1234, 1502, "hi".data⟩ : TranscriptSegment) = s := by
        simpa using hs
      exact ⟨['h'], 'i', rfl, rfl⟩)).1
